import Mathlib

/-
Verification of the retrieval-based question answering module
(src/002_Modulo_de_adquisicion_del_conocimiento.py).

The Python module is embedded shallowly:
  * strings are `String` (lists of characters), processed character by character;
  * Python's `str.lower`, `unicodedata.normalize("NFD", _)` and the `Mn`
    category test are modelled on the character domain the program works with
    (ASCII plus the precomposed Latin letters used in Spanish text); characters
    outside this domain are left untouched by `minuscula`/`nfdChar`;
  * the regex character classes `[^a-z0-9ñ\s?!.,]` and `[^a-z0-9ñ]` are
    represented by their (finite) sets of retained characters;
  * Python dicts of token counts are association lists with distinct keys
    (`vectorizar` only ever builds such lists);
  * floats are real numbers; `round(x, 3)` is round-half-to-even scaled by 1000;
  * the SQLite table `kb` is a list of `Registro` in insertion order, with
    `AUTOINCREMENT` ids; the `creado_en` timestamp column plays no role in any
    verified property and is omitted.
-/

namespace Experto

/-! ## Character tables -/

/-- Whitespace characters matched by Python's `\s` (and stripped by `str.strip`). -/
def blancos : List Char :=
  [' ', '\t', '\n', '\r', '\x0b', '\x0c', '\x1c', '\x1d', '\x1e', '\x1f',
   '\u0085', '\u00a0', '\u1680', '\u2000', '\u2001',
   '\u2002', '\u2003', '\u2004', '\u2005', '\u2006', '\u2007', '\u2008',
   '\u2009', '\u200a', '\u2028', '\u2029', '\u202f', '\u205f', '\u3000']

def esBlanco (c : Char) : Bool := blancos.contains c

def letras : List Char :=
  ['a', 'b', 'c', 'd', 'e', 'f', 'g', 'h', 'i', 'j', 'k', 'l', 'm',
   'n', 'o', 'p', 'q', 'r', 's', 't', 'u', 'v', 'w', 'x', 'y', 'z']

def digitos : List Char :=
  ['0', '1', '2', '3', '4', '5', '6', '7', '8', '9']

def puntuacion : List Char := ['?', '!', '.', ',']

/-- Characters (besides whitespace) retained by the regex `[^a-z0-9ñ\s?!.,]`. -/
def conservados : List Char := letras ++ digitos ++ ['ñ'] ++ puntuacion

/-- A character survives the cleaning regex of `normalizar`. -/
def conservaCaracter (c : Char) : Bool := conservados.contains c || esBlanco c

/-- The token alphabet of the splitting regex `[^a-z0-9ñ]+` of `tokenizar`. -/
def alfanumericos : List Char := letras ++ ['ñ'] ++ digitos

def esAlfanumerico (c : Char) : Bool := alfanumericos.contains c

/-- Lowercase map for the precomposed Latin letters of the modelled domain;
every other character falls through to ASCII `Char.toLower`, as in `str.lower`. -/
def tablaMinusculas : List (Char × Char) :=
  [('Á', 'á'), ('É', 'é'), ('Í', 'í'), ('Ó', 'ó'), ('Ú', 'ú'), ('Ü', 'ü'),
   ('Ñ', 'ñ'), ('À', 'à'), ('È', 'è'), ('Ì', 'ì'), ('Ò', 'ò'), ('Ù', 'ù'),
   ('Ä', 'ä'), ('Ë', 'ë'), ('Ï', 'ï'), ('Ö', 'ö'),
   ('Â', 'â'), ('Ê', 'ê'), ('Î', 'î'), ('Ô', 'ô'), ('Û', 'û'),
   ('Ç', 'ç'), ('Ã', 'ã'), ('Õ', 'õ')]

def minuscula (c : Char) : Char :=
  match tablaMinusculas.find? (fun p => p.1 == c) with
  | some p => p.2
  | none => c.toLower

/-- Canonical (NFD) decomposition of the precomposed letters of the modelled
domain into base letter plus combining mark; other characters decompose to
themselves. -/
def tablaNFD : List (Char × List Char) :=
  [('á', ['a', '\u0301']), ('é', ['e', '\u0301']), ('í', ['i', '\u0301']),
   ('ó', ['o', '\u0301']), ('ú', ['u', '\u0301']),
   ('à', ['a', '\u0300']), ('è', ['e', '\u0300']), ('ì', ['i', '\u0300']),
   ('ò', ['o', '\u0300']), ('ù', ['u', '\u0300']),
   ('ä', ['a', '\u0308']), ('ë', ['e', '\u0308']), ('ï', ['i', '\u0308']),
   ('ö', ['o', '\u0308']), ('ü', ['u', '\u0308']),
   ('â', ['a', '\u0302']), ('ê', ['e', '\u0302']), ('î', ['i', '\u0302']),
   ('ô', ['o', '\u0302']), ('û', ['u', '\u0302']),
   ('ñ', ['n', '\u0303']), ('ã', ['a', '\u0303']), ('õ', ['o', '\u0303']),
   ('ç', ['c', '\u0327'])]

def nfdChar (c : Char) : List Char :=
  match tablaNFD.find? (fun p => p.1 == c) with
  | some p => p.2
  | none => [c]

def nfd (l : List Char) : List Char := l.flatMap nfdChar

/-- Combining diacritical marks (Unicode category `Mn` on the modelled domain:
the block U+0300 to U+036F). -/
def esMn (c : Char) : Bool :=
  decide (0x300 ≤ c.toNat) && decide (c.toNat ≤ 0x36F)

/-! ## Text utilities (source section 1) -/

/-- One pass of `re.sub(r"\s+", " ", _)`: every maximal run of whitespace
becomes a single space. -/
def colapsaBlancos : List Char → List Char
  | [] => []
  | [c] => [if esBlanco c then ' ' else c]
  | c1 :: c2 :: resto =>
    if esBlanco c1 && esBlanco c2 then colapsaBlancos (c2 :: resto)
    else (if esBlanco c1 then ' ' else c1) :: colapsaBlancos (c2 :: resto)

/-- Python `str.strip`: drop leading and trailing whitespace. -/
def recorta (l : List Char) : List Char :=
  ((l.dropWhile esBlanco).reverse.dropWhile esBlanco).reverse

/-- Body of `normalizar` on character lists: lowercase, NFD decomposition,
removal of combining marks, regex cleaning, whitespace collapse and strip. -/
def normalizarL (l : List Char) : List Char :=
  recorta (colapsaBlancos
    ((((l.map minuscula).flatMap nfdChar).filter (fun c => !esMn c)).map
      (fun c => if conservaCaracter c then c else ' ')))

def normalizar (texto : String) : String := ⟨normalizarL texto.data⟩

/-- The characters that can occur in the output of `normalizar`: the retained
set minus `ñ` (which never survives NFD decomposition) and with `' '` as the
only possible whitespace. -/
def salida : List Char := letras ++ digitos ++ puntuacion ++ [' ']

def salidaPermitida (c : Char) : Bool := salida.contains c

/-- The shape of any output of `normalizar`: only characters of `salida`, no
two adjacent whitespace characters, and no leading or trailing whitespace. -/
structure Normalizado (l : List Char) : Prop where
  permitidos : ∀ c ∈ l, salidaPermitida c = true
  sinDoble : l.Chain' (fun a b => ¬(esBlanco a = true ∧ esBlanco b = true))
  cabeza : ∀ c, l.head? = some c → esBlanco c = false
  cola : ∀ c, l.getLast? = some c → esBlanco c = false

/-- Splitting at every non-alphanumeric character; pieces between adjacent
separators are empty and are filtered out by `tokenizar`, which matches
`re.split(r"[^a-z0-9ñ]+", _)` followed by the emptiness filter. -/
def partir : List Char → List Char → List (List Char)
  | [], acc => [acc.reverse]
  | c :: resto, acc =>
    if esAlfanumerico c then partir resto (c :: acc)
    else acc.reverse :: partir resto []

def tokenizar (texto : String) : List String :=
  ((partir (normalizar texto).data []).filter (fun t => !t.isEmpty)).map
    (fun t => ⟨t⟩)

/-- Sparse frequency vectors: Python dicts from token to count. -/
abbrev Dict := List (String × Nat)

/-- `vec[tok] = vec.get(tok, 0) + 1` on an association list. -/
def incrementa (vec : Dict) (tok : String) : Dict :=
  if vec.any (fun p => p.1 == tok) then
    vec.map (fun p => if p.1 == tok then (p.1, p.2 + 1) else p)
  else vec ++ [(tok, 1)]

def vectorizar (tokens : List String) : Dict := tokens.foldl incrementa []

/-- `d.get(k, 0)`. -/
def obtiene (d : Dict) (k : String) : Nat :=
  match d.find? (fun p => p.1 == k) with
  | some p => p.2
  | none => 0

def claves (d : Dict) : List String := d.map Prod.fst

/-- `sum(a.get(k, 0) * b.get(k, 0) for k in set(a) | set(b))`. -/
def productoPunto (a b : Dict) : Nat :=
  ((claves a ++ claves b).dedup.map (fun k => obtiene a k * obtiene b k)).sum

/-- `sum(v * v for v in d.values())`, the squared Euclidean norm. -/
def sumaCuadrados (d : Dict) : Nat := (d.map (fun p => p.2 * p.2)).sum

noncomputable def norma (d : Dict) : ℝ := Real.sqrt (sumaCuadrados d)

open Classical in
/-- `0.0 if na * nb == 0 else dot / (na * nb)`. -/
noncomputable def similitud_coseno (a b : Dict) : ℝ :=
  if norma a * norma b = 0 then 0.0
  else (productoPunto a b : ℝ) / (norma a * norma b)

/-! ## Storage (source section 2) -/

/-- A row of the `kb` table (the `creado_en` timestamp is omitted, see above). -/
structure Registro where
  id : Int
  pregunta : String
  respuesta : String
deriving DecidableEq

/-- The fixed seed rows inserted by `iniciar_db` into an empty table, with the
ids SQLite assigns them. -/
def semillas : List Registro :=
  [⟨1, "hola", "Hola, ¿en qué te ayudo?"⟩,
   ⟨2, "como estas", "Bien. ¿Qué necesitas?"⟩,
   ⟨3, "de que te gustaria hablar",
    "Podemos hablar de ingeniería, programación o del tema que traes."⟩]

/-- `iniciar_db`: seed the table if and only if `SELECT COUNT(*) FROM kb` is 0. -/
def iniciar_db (kb : List Registro) : List Registro :=
  if kb.length = 0 then semillas else kb

/-- The id `AUTOINCREMENT` assigns to the next inserted row. -/
def siguienteId (kb : List Registro) : Int :=
  (kb.map Registro.id).foldl max 0 + 1

/-- `guardar_entrada`: insert `(normalizar(pregunta), respuesta)`. -/
def guardar_entrada (kb : List Registro) (pregunta respuesta : String) :
    List Registro :=
  kb ++ [⟨siguienteId kb, normalizar pregunta, respuesta⟩]

/-- Knowledge-base states reachable through the write interface of the module:
the empty store, a bootstrap call, or a learned entry. -/
inductive Alcanzable : List Registro → Prop where
  | vacia : Alcanzable []
  | arranque {kb} : Alcanzable kb → Alcanzable (iniciar_db kb)
  | aprende {kb} (pregunta respuesta : String) :
      Alcanzable kb → Alcanzable (guardar_entrada kb pregunta respuesta)

/-! ## Matching core (source section 3) -/

/-- The transient best-candidate record of `mejor_coincidencia`. -/
structure Mejor where
  id : Int
  score : ℝ
  pregunta : String
  respuesta : String

/-- The sentinel `{"id": -1, "score": 0.0, "pregunta": "", "respuesta": ""}`. -/
noncomputable def centinela : Mejor := ⟨-1, 0.0, "", ""⟩

/-- The query vector: `vectorizar(tokenizar(normalizar(texto)))`. -/
def vecConsulta (texto : String) : Dict :=
  vectorizar (tokenizar (normalizar texto))

/-- Cosine score of one stored row against the query vector. -/
noncomputable def puntajeFila (vec_q : Dict) (fila : Registro) : ℝ :=
  similitud_coseno vec_q (vectorizar (tokenizar fila.pregunta))

/-- Best row built from a stored row, as assigned inside the scan loop. -/
noncomputable def mejorDe (vec_q : Dict) (fila : Registro) : Mejor :=
  ⟨fila.id, puntajeFila vec_q fila, fila.pregunta, fila.respuesta⟩

open Classical in
/-- One iteration of the scan: `if s > mejor["score"]: mejor = {...}`. -/
noncomputable def paso (vec_q : Dict) (mejor : Mejor) (fila : Registro) : Mejor :=
  if puntajeFila vec_q fila > mejor.score then mejorDe vec_q fila else mejor

/-- `mejor_coincidencia`: scan all rows tracking the arg-max, and return the
best candidate together with the normalized query. -/
noncomputable def mejor_coincidencia (kb : List Registro) (texto_usuario : String) :
    Mejor × String :=
  (kb.foldl (paso (vecConsulta texto_usuario)) centinela, normalizar texto_usuario)

/-! ## High-level API (source section 4) -/

structure Resultado where
  coincidencia : Bool
  respuesta : String
  puntaje : ℝ
  pregunta_coincidente : Option String

def UMBRAL : ℝ := 0.72

def mensajeSinRespuesta : String := "No tengo una respuesta para eso todavía."

open Classical in
/-- Python's bankers rounding (`round`) of a real to an integer:
ties go to the even neighbour. -/
noncomputable def redondeaMitadPar (y : ℝ) : ℤ :=
  if Int.fract y = 1 / 2 then (if Even ⌊y⌋ then ⌊y⌋ else ⌊y⌋ + 1)
  else round y

/-- `round(x, 3)`. -/
noncomputable def redondear3 (x : ℝ) : ℝ := (redondeaMitadPar (x * 1000) : ℝ) / 1000

open Classical in
/-- `responder`: threshold policy over the best match (`mejor` of the source is
written out as the projection it stands for). -/
noncomputable def responder (kb : List Registro) (mensaje : String) : Resultado :=
  if (mejor_coincidencia kb mensaje).1.score ≥ UMBRAL then
    ⟨true, (mejor_coincidencia kb mensaje).1.respuesta,
      redondear3 (mejor_coincidencia kb mensaje).1.score,
      some (mejor_coincidencia kb mensaje).1.pregunta⟩
  else
    ⟨false, mensajeSinRespuesta,
      redondear3 (mejor_coincidencia kb mensaje).1.score, none⟩

/-! ## Lemmas on the character tables -/

theorem minuscula_salida : ∀ c ∈ salida, minuscula c = c := by decide

theorem nfdChar_salida : ∀ c ∈ salida, nfdChar c = [c] := by decide

theorem esMn_salida : ∀ c ∈ salida, (!esMn c) = true := by decide

theorem conserva_salida : ∀ c ∈ salida, conservaCaracter c = true := by decide

theorem blanco_salida : ∀ c ∈ salida, esBlanco c = true → c = ' ' := by decide

theorem conservados_salida :
    ∀ c ∈ conservados, esBlanco c = false → c ≠ 'ñ' → salidaPermitida c = true := by
  decide

theorem salidaPermitida_mem {c : Char} (h : salidaPermitida c = true) : c ∈ salida := by
  simpa [salidaPermitida] using h

theorem nfdChar_sin_enie (c : Char) : 'ñ' ∉ nfdChar c := by
  unfold nfdChar
  cases hf : tablaNFD.find? (fun p => p.1 == c) with
  | some p =>
    have hp : p ∈ tablaNFD := List.mem_of_find?_eq_some hf
    have htab : ∀ q ∈ tablaNFD, 'ñ' ∉ q.2 := by decide
    exact htab p hp
  | none =>
    intro hmem
    have hc : c = 'ñ' := by
      have : 'ñ' ∈ [c] := hmem
      simpa [eq_comm] using this
    have hno := List.find?_eq_none.mp hf ⟨'ñ', ['n', '̃']⟩ (by decide)
    rw [hc] at hno
    simp at hno

/-! ## Generic identity lemmas for the normalization pipeline -/

theorem map_identidad {l : List Char} {f : Char → Char}
    (h : ∀ c ∈ l, f c = c) : l.map f = l := by
  induction l with
  | nil => rfl
  | cons c resto ih =>
    simp only [List.map_cons, h c (by simp)]
    rw [ih (fun d hd => h d (by simp [hd]))]

theorem flatMap_identidad {l : List Char} {f : Char → List Char}
    (h : ∀ c ∈ l, f c = [c]) : l.flatMap f = l := by
  induction l with
  | nil => rfl
  | cons c resto ih =>
    simp only [List.flatMap_cons, h c (by simp)]
    rw [ih (fun d hd => h d (by simp [hd]))]
    rfl

/-! ## Lemmas on whitespace collapapse and strip -/

theorem colapsa_cons_no_blanco {c : Char} {r : List Char} (h : esBlanco c = false) :
    colapsaBlancos (c :: r) = c :: colapsaBlancos r := by
  cases r with
  | nil => simp [colapsaBlancos, h]
  | cons c2 r2 => simp [colapsaBlancos, h]

theorem colapsa_identidad {l : List Char}
    (hd : l.Chain' (fun a b => ¬(esBlanco a = true ∧ esBlanco b = true)))
    (hs : ∀ c ∈ l, esBlanco c = true → c = ' ') : colapsaBlancos l = l := by
  induction l with
  | nil => rfl
  | cons c1 resto ih =>
    cases resto with
    | nil =>
      cases hb : esBlanco c1 with
      | true => simp [colapsaBlancos, hb, hs c1 (by simp) hb]
      | false => simp [colapsaBlancos, hb]
    | cons c2 resto2 =>
      have hR := (List.chain'_cons.mp hd).1
      have hcola := (List.chain'_cons.mp hd).2
      have hg : (esBlanco c1 && esBlanco c2) = false := by
        cases h1 : esBlanco c1 <;> cases h2 : esBlanco c2 <;> simp_all
      have hrec := ih hcola (fun d hd hb => hs d (by simp [hd]) hb)
      cases hb : esBlanco c1 with
      | true =>
        have hb2 : esBlanco c2 = false := by
          cases h2 : esBlanco c2 <;> simp_all
        simp only [colapsaBlancos, hb, hb2, Bool.and_false, Bool.false_eq_true,
          if_false, if_true]
        rw [hrec, hs c1 (by simp) hb]
      | false =>
        simp only [colapsaBlancos, hb, Bool.false_and, Bool.false_eq_true, if_false]
        rw [hrec]

theorem colapsa_mem {l : List Char} :
    ∀ c ∈ colapsaBlancos l, c = ' ' ∨ (c ∈ l ∧ esBlanco c = false) := by
  induction l with
  | nil => simp [colapsaBlancos]
  | cons c1 resto ih =>
    cases resto with
    | nil =>
      intro c hc
      cases hb : esBlanco c1 with
      | true => simp [colapsaBlancos, hb] at hc; simp [hc]
      | false =>
        simp [colapsaBlancos, hb] at hc
        exact Or.inr ⟨by simp [hc], hc ▸ hb⟩
    | cons c2 resto2 =>
      intro c hc
      by_cases hg : (esBlanco c1 && esBlanco c2) = true
      · have : c ∈ colapsaBlancos (c2 :: resto2) := by
          simpa [colapsaBlancos, hg] using hc
        rcases ih c this with h | ⟨hm, hb⟩
        · exact Or.inl h
        · exact Or.inr ⟨by simp [List.mem_cons] at hm ⊢; tauto, hb⟩
      · have hg' : (esBlanco c1 && esBlanco c2) = false := by
          simpa using hg
        simp only [colapsaBlancos, hg', Bool.false_eq_true, if_false,
          List.mem_cons] at hc
        rcases hc with hc | hc
        · cases hb : esBlanco c1 with
          | true => simp [hb] at hc; simp [hc]
          | false =>
            simp [hb] at hc
            exact Or.inr ⟨by simp [hc], hc ▸ hb⟩
        · rcases ih c hc with h | ⟨hm, hb⟩
          · exact Or.inl h
          · exact Or.inr ⟨by simp [List.mem_cons] at hm ⊢; tauto, hb⟩

theorem colapsa_chain (l : List Char) :
    (colapsaBlancos l).Chain' (fun a b => ¬(esBlanco a = true ∧ esBlanco b = true)) := by
  induction l with
  | nil => simp [colapsaBlancos]
  | cons c1 resto ih =>
    cases resto with
    | nil =>
      cases hb : esBlanco c1 with
      | true => simp only [colapsaBlancos, hb]; exact List.chain'_singleton _
      | false => simp only [colapsaBlancos, hb]; exact List.chain'_singleton _
    | cons c2 resto2 =>
      by_cases hg : (esBlanco c1 && esBlanco c2) = true
      · simpa [colapsaBlancos, hg] using ih
      · have hg' : (esBlanco c1 && esBlanco c2) = false := by simpa using hg
        simp only [colapsaBlancos, hg', Bool.false_eq_true, if_false]
        rw [List.chain'_cons']
        refine ⟨?_, ih⟩
        intro y hy
        cases hb : esBlanco c1 with
        | false => simp [hb]
        | true =>
          have hb2 : esBlanco c2 = false := by
            cases h2 : esBlanco c2 <;> simp_all
          rw [colapsa_cons_no_blanco hb2] at hy
          simp only [List.head?_cons, Option.mem_some_iff] at hy
          subst hy
          simp [hb2]

theorem mem_dropWhile_sub {p : Char → Bool} {l : List Char} {c : Char}
    (h : c ∈ l.dropWhile p) : c ∈ l :=
  (List.dropWhile_suffix p).subset h

theorem dropWhile_head_falso {p : Char → Bool} {l : List Char} {c : Char}
    (h : (l.dropWhile p).head? = some c) : p c = false := by
  induction l with
  | nil => simp at h
  | cons a resto ih =>
    cases hp : p a with
    | true => rw [List.dropWhile_cons_of_pos hp] at h; exact ih h
    | false =>
      rw [List.dropWhile_cons_of_neg (by simp [hp])] at h
      simp only [List.head?_cons, Option.some.injEq] at h
      rw [← h]
      exact hp

theorem recorta_mem {l : List Char} {c : Char} (h : c ∈ recorta l) : c ∈ l := by
  unfold recorta at h
  rw [List.mem_reverse] at h
  have h2 := (List.dropWhile_suffix esBlanco).subset h
  rw [List.mem_reverse] at h2
  exact (List.dropWhile_suffix esBlanco).subset h2

theorem recorta_cadena {R : Char → Char → Prop} (hsym : ∀ a b, R a b → R b a)
    {l : List Char} (h : l.Chain' R) : (recorta l).Chain' R := by
  unfold recorta
  have h1 : (l.dropWhile esBlanco).Chain' R :=
    List.Chain'.suffix h (List.dropWhile_suffix esBlanco)
  have h2 : ((l.dropWhile esBlanco).reverse).Chain' R := by
    refine List.Chain'.imp (fun a b hab => hsym b a hab) ?_
    exact List.chain'_reverse.mpr h1
  have h3 : (((l.dropWhile esBlanco).reverse).dropWhile esBlanco).Chain' R :=
    List.Chain'.suffix h2 (List.dropWhile_suffix esBlanco)
  refine List.Chain'.imp (fun a b hab => hsym b a hab) ?_
  exact List.chain'_reverse.mpr h3

theorem recorta_cabeza {l : List Char} {c : Char}
    (h : (recorta l).head? = some c) : esBlanco c = false := by
  unfold recorta at h
  rw [List.head?_reverse] at h
  set B := (l.dropWhile esBlanco).reverse.dropWhile esBlanco with hB
  cases hBe : B with
  | nil => rw [hBe] at h; simp at h
  | cons b bs =>
    have hne : B ≠ [] := by rw [hBe]; simp
    have hsuf : B <:+ (l.dropWhile esBlanco).reverse := List.dropWhile_suffix esBlanco
    obtain ⟨u, hu⟩ := hsuf
    have : B.getLast? = ((l.dropWhile esBlanco).reverse).getLast? := by
      rw [← hu]; exact (List.getLast?_append_of_ne_nil u hne).symm
    rw [hBe] at this h
    rw [this] at h
    rw [List.getLast?_reverse] at h
    exact dropWhile_head_falso h

theorem recorta_cola {l : List Char} {c : Char}
    (h : (recorta l).getLast? = some c) : esBlanco c = false := by
  unfold recorta at h
  rw [List.getLast?_reverse] at h
  exact dropWhile_head_falso h

theorem recorta_identidad {l : List Char}
    (hc : ∀ c, l.head? = some c → esBlanco c = false)
    (ht : ∀ c, l.getLast? = some c → esBlanco c = false) : recorta l = l := by
  have h1 : l.dropWhile esBlanco = l := by
    cases l with
    | nil => rfl
    | cons a resto =>
      have := hc a (by simp)
      rw [List.dropWhile_cons_of_neg (by simp [this])]
  unfold recorta
  rw [h1]
  have h2 : l.reverse.dropWhile esBlanco = l.reverse := by
    cases hr : l.reverse with
    | nil => rfl
    | cons a resto =>
      have hga : l.getLast? = some a := by
        rw [← List.head?_reverse, hr]; rfl
      have := ht a hga
      rw [← hr, hr, List.dropWhile_cons_of_neg (by simp [this])]
  rw [h2, List.reverse_reverse]

/-! ## Shape and idempotence of `normalizar` -/

theorem normalizar_sin_enie_lista (l : List Char) : 'ñ' ∉ normalizarL l := by
  intro hmem
  unfold normalizarL at hmem
  have h1 := recorta_mem hmem
  rcases colapsa_mem _ h1 with h | ⟨h2, _⟩
  · exact absurd h (by decide)
  · rcases List.mem_map.mp h2 with ⟨d, hd, hdc⟩
    by_cases hcd : conservaCaracter d = true
    · rw [if_pos hcd] at hdc
      subst hdc
      have h3 := List.mem_of_mem_filter hd
      rcases List.mem_flatMap.mp h3 with ⟨e, _, he⟩
      exact nfdChar_sin_enie e he
    · rw [if_neg hcd] at hdc
      exact absurd hdc (by decide)

theorem normalizado_normalizarL (l : List Char) : Normalizado (normalizarL l) := by
  constructor
  · intro c hc
    have hsal := recorta_mem hc
    rcases colapsa_mem _ hsal with h | ⟨h2, hb⟩
    · subst h; decide
    · rcases List.mem_map.mp h2 with ⟨d, hd, hdc⟩
      by_cases hcd : conservaCaracter d = true
      · rw [if_pos hcd] at hdc
        rw [← hdc] at hb hc ⊢
        have hdis : d ∈ conservados ∨ esBlanco d = true := by
          simpa [conservaCaracter] using hcd
        have hcons : d ∈ conservados := by
          rcases hdis with h | h
          · exact h
          · rw [h] at hb; simp at hb
        have hne : d ≠ 'ñ' := by
          intro h
          rw [h] at hc
          exact normalizar_sin_enie_lista l hc
        exact conservados_salida d hcons hb hne
      · rw [if_neg hcd] at hdc
        rw [← hdc] at hb
        exact absurd hb (by decide)
  · exact recorta_cadena (fun a b hab hc => hab ⟨hc.2, hc.1⟩) (colapsa_chain _)
  · intro c hc
    exact recorta_cabeza hc
  · intro c hc
    exact recorta_cola hc

theorem normalizado_identidad {l : List Char} (h : Normalizado l) :
    normalizarL l = l := by
  have hsal : ∀ c ∈ l, c ∈ salida := fun c hc => salidaPermitida_mem (h.permitidos c hc)
  unfold normalizarL
  rw [map_identidad (fun c hc => minuscula_salida c (hsal c hc))]
  rw [flatMap_identidad (fun c hc => nfdChar_salida c (hsal c hc))]
  rw [List.filter_eq_self.mpr (fun c hc => esMn_salida c (hsal c hc))]
  rw [map_identidad (fun c hc => by rw [if_pos (conserva_salida c (hsal c hc))])]
  rw [colapsa_identidad h.sinDoble
    (fun c hc hb => blanco_salida c (hsal c hc) hb)]
  exact recorta_identidad h.cabeza h.cola

theorem normalizar_idempotente (s : String) :
    normalizar (normalizar s) = normalizar s := by
  show String.mk (normalizarL (normalizar s).data) = normalizar s
  have hdata : (normalizar s).data = normalizarL s.data := rfl
  rw [hdata, normalizado_identidad (normalizado_normalizarL s.data)]
  rfl

theorem tokenizar_normalizar (s : String) :
    tokenizar (normalizar s) = tokenizar s := by
  unfold tokenizar
  rw [normalizar_idempotente]

/-! ## Lemmas on frequency vectors -/

theorem dedup_append_subconjunto {α : Type} [DecidableEq α] :
    ∀ {l₁ l₂ : List α}, l₁ ⊆ l₂ → (l₁ ++ l₂).dedup = l₂.dedup := by
  intro l₁
  induction l₁ with
  | nil => intro l₂ _; simp
  | cons a l ih =>
    intro l₂ h
    have ha : a ∈ l ++ l₂ := List.mem_append_right l (h (by simp))
    rw [List.cons_append, List.dedup_cons_of_mem ha]
    exact ih (fun x hx => h (by simp [hx]))

theorem obtiene_cabeza (p : String × Nat) (d : Dict) : obtiene (p :: d) p.1 = p.2 := by
  unfold obtiene
  rw [List.find?_cons_of_pos _ (by simp)]

theorem obtiene_resto {p : String × Nat} {d : Dict} {k : String} (h : k ≠ p.1) :
    obtiene (p :: d) k = obtiene d k := by
  unfold obtiene
  rw [List.find?_cons_of_neg _ (by simp [Ne.symm h])]

theorem obtiene_fuera {d : Dict} {k : String} (h : k ∉ claves d) : obtiene d k = 0 := by
  unfold obtiene
  cases hf : d.find? (fun p => p.1 == k) with
  | some p =>
    have hp := List.find?_some hf
    have hm := List.mem_of_find?_eq_some hf
    have : k ∈ claves d := by
      simp only [beq_iff_eq] at hp
      rw [← hp]
      exact List.mem_map_of_mem Prod.fst hm
    exact absurd this h
  | none => rfl

theorem suma_claves {M : Type} [AddCommMonoid M] (F : Nat → M) :
    ∀ {d : Dict}, (claves d).Nodup →
      ((claves d).map (fun k => F (obtiene d k))).sum =
        (d.map (fun p => F p.2)).sum := by
  intro d
  induction d with
  | nil => intro _; rfl
  | cons p resto ih =>
    intro hnd
    have hcl : claves (p :: resto) = p.1 :: claves resto := rfl
    rw [hcl] at hnd ⊢
    have hng := List.nodup_cons.mp hnd
    have hcongr : (claves resto).map (fun k => F (obtiene (p :: resto) k)) =
        (claves resto).map (fun k => F (obtiene resto k)) := by
      refine List.map_congr_left (fun k hk => ?_)
      have : k ≠ p.1 := fun he => hng.1 (he ▸ hk)
      rw [obtiene_resto this]
    simp only [List.map_cons, List.sum_cons, obtiene_cabeza, hcongr]
    rw [ih hng.2]

theorem incrementa_claves_nodup {vec : Dict} {tok : String}
    (h : (claves vec).Nodup) : (claves (incrementa vec tok)).Nodup := by
  unfold incrementa
  by_cases hany : vec.any (fun p => p.1 == tok) = true
  · rw [if_pos hany]
    have : claves (vec.map (fun p => if p.1 == tok then (p.1, p.2 + 1) else p)) =
        claves vec := by
      unfold claves
      rw [List.map_map]
      refine List.map_congr_left (fun p _ => ?_)
      by_cases hp : p.1 = tok <;> simp [hp]
    rw [this]
    exact h
  · rw [if_neg hany]
    have htok : tok ∉ claves vec := by
      intro hm
      rcases List.mem_map.mp hm with ⟨p, hp, hpk⟩
      exact hany (List.any_eq_true.mpr ⟨p, hp, by simp [hpk]⟩)
    have : claves (vec ++ [(tok, 1)]) = claves vec ++ [tok] := by simp [claves]
    rw [this, List.nodup_append]
    refine ⟨h, List.nodup_singleton tok, ?_⟩
    intro a ha hb
    simp at hb
    rw [hb] at ha
    exact htok ha

theorem incrementa_no_vacia (vec : Dict) (tok : String) : incrementa vec tok ≠ [] := by
  unfold incrementa
  by_cases hany : vec.any (fun p => p.1 == tok) = true
  · rw [if_pos hany]
    cases vec with
    | nil => simp at hany
    | cons p resto => simp
  · rw [if_neg hany]
    simp

theorem incrementa_positivos {vec : Dict} {tok : String}
    (h : ∀ p ∈ vec, 0 < p.2) : ∀ p ∈ incrementa vec tok, 0 < p.2 := by
  unfold incrementa
  by_cases hany : vec.any (fun p => p.1 == tok) = true
  · rw [if_pos hany]
    intro p hp
    rcases List.mem_map.mp hp with ⟨q, hq, hqp⟩
    by_cases hqt : (q.1 == tok) = true
    · rw [if_pos hqt] at hqp; rw [← hqp]; simp
    · rw [if_neg hqt] at hqp; rw [← hqp]; exact h q hq
  · rw [if_neg hany]
    intro p hp
    rcases List.mem_append.mp hp with hp | hp
    · exact h p hp
    · simp at hp; rw [hp]; simp

theorem vectorizar_fold_nodup (toks : List String) :
    ∀ {init : Dict}, (claves init).Nodup →
      (claves (toks.foldl incrementa init)).Nodup := by
  induction toks with
  | nil => intro _ h; exact h
  | cons t ts ih => intro init h; exact ih (incrementa_claves_nodup h)

theorem vectorizar_claves_nodup (toks : List String) :
    (claves (vectorizar toks)).Nodup :=
  vectorizar_fold_nodup toks (by simp [claves])

theorem vectorizar_fold_no_vacia (toks : List String) :
    ∀ {init : Dict}, init ≠ [] → toks.foldl incrementa init ≠ [] := by
  induction toks with
  | nil => intro _ h; exact h
  | cons t ts ih => intro init _; exact ih (incrementa_no_vacia init t)

theorem vectorizar_fold_positivos (toks : List String) :
    ∀ {init : Dict}, (∀ p ∈ init, 0 < p.2) →
      ∀ p ∈ toks.foldl incrementa init, 0 < p.2 := by
  induction toks with
  | nil => intro _ h; exact h
  | cons t ts ih => intro init h; exact ih (incrementa_positivos h)

theorem elemento_le_sumaCuadrados {d : Dict} {p : String × Nat} (h : p ∈ d) :
    p.2 * p.2 ≤ sumaCuadrados d := by
  induction d with
  | nil => simp at h
  | cons q resto ih =>
    unfold sumaCuadrados
    rcases List.mem_cons.mp h with h | h
    · rw [h]; simp [List.sum_cons]
    · simp only [List.map_cons, List.sum_cons]
      exact le_add_of_nonneg_of_le (Nat.zero_le _) (ih h)

theorem sumaCuadrados_vectorizar_pos {toks : List String} (h : toks ≠ []) :
    0 < sumaCuadrados (vectorizar toks) := by
  cases toks with
  | nil => exact absurd rfl h
  | cons t ts =>
    have hne : vectorizar (t :: ts) ≠ [] := by
      show ts.foldl incrementa (incrementa [] t) ≠ []
      exact vectorizar_fold_no_vacia ts (incrementa_no_vacia [] t)
    have hpos : ∀ p ∈ vectorizar (t :: ts), 0 < p.2 := by
      show ∀ p ∈ ts.foldl incrementa (incrementa [] t), 0 < p.2
      exact vectorizar_fold_positivos ts (incrementa_positivos (by simp))
    cases hv : vectorizar (t :: ts) with
    | nil => exact absurd hv hne
    | cons p resto =>
      have hp : 0 < p.2 := hpos p (by rw [hv]; simp)
      exact lt_of_lt_of_le (Nat.mul_pos hp hp)
        (elemento_le_sumaCuadrados (List.mem_cons_self p resto))

/-! ## Lemmas on the cosine scorer -/

theorem norma_cero {d : Dict} : norma d = 0 ↔ sumaCuadrados d = 0 := by
  unfold norma
  rw [Real.sqrt_eq_zero']
  constructor
  · intro h
    exact_mod_cast le_antisymm h (by positivity)
  · intro h
    rw [h]
    simp

theorem similitud_eval (a b : Dict) :
    similitud_coseno a b =
      if sumaCuadrados a * sumaCuadrados b = 0 then 0
      else (productoPunto a b : ℝ) / (norma a * norma b) := by
  have hiff : norma a * norma b = 0 ↔ sumaCuadrados a * sumaCuadrados b = 0 := by
    rw [mul_eq_zero, norma_cero, norma_cero, Nat.mul_eq_zero]
  unfold similitud_coseno
  by_cases h : sumaCuadrados a * sumaCuadrados b = 0
  · rw [if_pos (hiff.mpr h), if_pos h]
    norm_num
  · rw [if_neg (fun hc => h (hiff.mp hc)), if_neg h]

theorem similitud_norma_cero {a b : Dict} (h : norma a = 0 ∨ norma b = 0) :
    similitud_coseno a b = 0 := by
  unfold similitud_coseno
  rw [if_pos (mul_eq_zero.mpr h)]
  norm_num

theorem similitud_vacia_izq (b : Dict) : similitud_coseno [] b = 0 :=
  similitud_norma_cero (Or.inl (norma_cero.mpr rfl))

theorem similitud_vacia_der (a : Dict) : similitud_coseno a [] = 0 :=
  similitud_norma_cero (Or.inr (norma_cero.mpr rfl))

theorem productoPunto_auto {d : Dict} (h : (claves d).Nodup) :
    productoPunto d d = sumaCuadrados d := by
  unfold productoPunto
  rw [dedup_append_subconjunto (fun x hx => hx), List.dedup_eq_self.mpr h]
  exact suma_claves (fun n => n * n) h

theorem similitud_auto {d : Dict} (hn : (claves d).Nodup)
    (hpos : 0 < sumaCuadrados d) : similitud_coseno d d = 1 := by
  rw [similitud_eval]
  have hne : sumaCuadrados d * sumaCuadrados d ≠ 0 :=
    Nat.mul_ne_zero (Nat.pos_iff_ne_zero.mp hpos) (Nat.pos_iff_ne_zero.mp hpos)
  rw [if_neg hne, productoPunto_auto hn]
  unfold norma
  rw [Real.mul_self_sqrt (by positivity)]
  exact div_self (by exact_mod_cast Nat.pos_iff_ne_zero.mp hpos)

theorem similitud_no_negativa (a b : Dict) : 0 ≤ similitud_coseno a b := by
  rw [similitud_eval]
  by_cases h : sumaCuadrados a * sumaCuadrados b = 0
  · rw [if_pos h]
  · rw [if_neg h]
    have h1 : (0:ℝ) ≤ (productoPunto a b : ℝ) := by positivity
    have h2 : (0:ℝ) ≤ norma a * norma b := by
      unfold norma
      positivity
    exact div_nonneg h1 h2

theorem suma_cuadrados_cast {d : Dict} (hnd : (claves d).Nodup) :
    ((claves d).map (fun k => ((obtiene d k : ℝ)) ^ 2)).sum = (sumaCuadrados d : ℝ) := by
  have h := suma_claves (M := ℝ) (fun n => ((n : ℝ)) ^ 2) hnd
  rw [h]
  unfold sumaCuadrados
  rw [Nat.cast_list_sum, List.map_map]
  refine congrArg List.sum ?_
  refine List.map_congr_left (fun p _ => ?_)
  simp only [Function.comp_apply]
  push_cast
  ring

theorem productoPunto_cota {a b : Dict} (ha : (claves a).Nodup)
    (hb : (claves b).Nodup) :
    (productoPunto a b : ℝ) ≤ norma a * norma b := by
  set K := (claves a ++ claves b).dedup with hK
  have hKnd : K.Nodup := List.nodup_dedup _
  have hdot : (productoPunto a b : ℝ) =
      ∑ k ∈ K.toFinset, (obtiene a k : ℝ) * (obtiene b k : ℝ) := by
    rw [List.sum_toFinset _ hKnd]
    unfold productoPunto
    rw [← hK, Nat.cast_list_sum, List.map_map]
    refine congrArg List.sum ?_
    refine List.map_congr_left (fun k _ => ?_)
    simp only [Function.comp_apply]
    push_cast
    ring
  have hsubA : (claves a).toFinset ⊆ K.toFinset := by
    intro k hk
    rw [List.mem_toFinset] at hk ⊢
    rw [hK, List.mem_dedup]
    exact List.mem_append_left _ hk
  have hsubB : (claves b).toFinset ⊆ K.toFinset := by
    intro k hk
    rw [List.mem_toFinset] at hk ⊢
    rw [hK, List.mem_dedup]
    exact List.mem_append_right _ hk
  have hA : ∑ k ∈ K.toFinset, ((obtiene a k : ℝ)) ^ 2 = (sumaCuadrados a : ℝ) := by
    rw [← Finset.sum_subset hsubA (fun k _ hkn => ?_)]
    · rw [List.sum_toFinset _ ha]
      exact suma_cuadrados_cast ha
    · have : k ∉ claves a := fun h => hkn (List.mem_toFinset.mpr h)
      rw [obtiene_fuera this]
      norm_num
  have hB : ∑ k ∈ K.toFinset, ((obtiene b k : ℝ)) ^ 2 = (sumaCuadrados b : ℝ) := by
    rw [← Finset.sum_subset hsubB (fun k _ hkn => ?_)]
    · rw [List.sum_toFinset _ hb]
      exact suma_cuadrados_cast hb
    · have : k ∉ claves b := fun h => hkn (List.mem_toFinset.mpr h)
      rw [obtiene_fuera this]
      norm_num
  have hnn : 0 ≤ ∑ k ∈ K.toFinset, (obtiene a k : ℝ) * (obtiene b k : ℝ) :=
    Finset.sum_nonneg (fun k _ => by positivity)
  have hcs := Finset.sum_mul_sq_le_sq_mul_sq K.toFinset
    (fun k => (obtiene a k : ℝ)) (fun k => (obtiene b k : ℝ))
  have hle : ∑ k ∈ K.toFinset, (obtiene a k : ℝ) * (obtiene b k : ℝ) ≤
      Real.sqrt ((sumaCuadrados a : ℝ) * (sumaCuadrados b : ℝ)) := by
    rw [Real.le_sqrt hnn (by positivity)]
    calc (∑ k ∈ K.toFinset, (obtiene a k : ℝ) * (obtiene b k : ℝ)) ^ 2 ≤
        (∑ k ∈ K.toFinset, ((obtiene a k : ℝ)) ^ 2) *
          ∑ k ∈ K.toFinset, ((obtiene b k : ℝ)) ^ 2 := hcs
      _ = (sumaCuadrados a : ℝ) * (sumaCuadrados b : ℝ) := by rw [hA, hB]
  rw [hdot]
  calc ∑ k ∈ K.toFinset, (obtiene a k : ℝ) * (obtiene b k : ℝ) ≤
      Real.sqrt ((sumaCuadrados a : ℝ) * (sumaCuadrados b : ℝ)) := hle
    _ = norma a * norma b := by
      unfold norma
      rw [Real.sqrt_mul (by positivity)]

theorem similitud_cota_uno {a b : Dict} (ha : (claves a).Nodup)
    (hb : (claves b).Nodup) : similitud_coseno a b ≤ 1 := by
  rw [similitud_eval]
  by_cases h : sumaCuadrados a * sumaCuadrados b = 0
  · rw [if_pos h]
    norm_num
  · rw [if_neg h]
    rcases Nat.mul_ne_zero_iff.mp h with ⟨h1, h2⟩
    have hpos : 0 < norma a * norma b := by
      unfold norma
      exact mul_pos (Real.sqrt_pos.mpr (by exact_mod_cast Nat.pos_of_ne_zero h1))
        (Real.sqrt_pos.mpr (by exact_mod_cast Nat.pos_of_ne_zero h2))
    rw [div_le_one hpos]
    exact productoPunto_cota ha hb

/-! ## Lemmas on the matcher scan -/

theorem paso_score_mono (v : Dict) (m : Mejor) (fila : Registro) :
    m.score ≤ (paso v m fila).score := by
  unfold paso
  by_cases h : puntajeFila v fila > m.score
  · rw [if_pos h]
    exact le_of_lt h
  · rw [if_neg h]

theorem fold_score_mono (v : Dict) (filas : List Registro) :
    ∀ m : Mejor, m.score ≤ (filas.foldl (paso v) m).score := by
  induction filas with
  | nil => intro m; exact le_refl _
  | cons f fs ih =>
    intro m
    exact le_trans (paso_score_mono v m f) (ih (paso v m f))

theorem fold_score_ge {v : Dict} {filas : List Registro} {fila : Registro}
    (h : fila ∈ filas) :
    ∀ m : Mejor, puntajeFila v fila ≤ (filas.foldl (paso v) m).score := by
  induction filas with
  | nil => simp at h
  | cons f fs ih =>
    intro m
    rcases List.mem_cons.mp h with he | h2
    · subst he
      have h1 : puntajeFila v fila ≤ (paso v m fila).score := by
        unfold paso
        by_cases hgt : puntajeFila v fila > m.score
        · rw [if_pos hgt]
          exact le_of_eq rfl
        · rw [if_neg hgt]
          exact le_of_not_lt hgt
      exact le_trans h1 (fold_score_mono v fs _)
    · exact ih h2 _

theorem fold_resultado (v : Dict) (filas : List Registro) :
    ∀ m : Mejor, filas.foldl (paso v) m = m ∨
      ∃ fila ∈ filas, filas.foldl (paso v) m = mejorDe v fila := by
  induction filas with
  | nil => intro m; exact Or.inl rfl
  | cons f fs ih =>
    intro m
    rw [List.foldl_cons]
    rcases ih (paso v m f) with h | ⟨fila, hf, he⟩
    · rw [h]
      unfold paso
      by_cases hgt : puntajeFila v f > m.score
      · rw [if_pos hgt]
        exact Or.inr ⟨f, by simp, rfl⟩
      · rw [if_neg hgt]
        exact Or.inl rfl
    · exact Or.inr ⟨fila, by simp [hf], he⟩

theorem fold_sin_actualizar {v : Dict} {filas : List Registro} :
    ∀ {m : Mejor}, (∀ fila ∈ filas, puntajeFila v fila ≤ m.score) →
      filas.foldl (paso v) m = m := by
  induction filas with
  | nil => intro m _; rfl
  | cons f fs ih =>
    intro m h
    rw [List.foldl_cons]
    have hf : paso v m f = m := by
      unfold paso
      rw [if_neg (not_lt.mpr (h f (by simp)))]
    rw [hf]
    exact ih (fun fila hm => h fila (by simp [hm]))

theorem fold_centinela_o_positivo (v : Dict) (filas : List Registro) :
    ∀ m : Mejor, (m = centinela ∨ 0 < m.score) →
      filas.foldl (paso v) m = centinela ∨ 0 < (filas.foldl (paso v) m).score := by
  induction filas with
  | nil => intro m h; exact h
  | cons f fs ih =>
    intro m h
    rw [List.foldl_cons]
    refine ih (paso v m f) ?_
    unfold paso
    by_cases hgt : puntajeFila v f > m.score
    · rw [if_pos hgt]
      refine Or.inr ?_
      have hm0 : 0 ≤ m.score := by
        rcases h with h | h
        · rw [h]
          show (0:ℝ) ≤ 0.0
          norm_num
        · exact le_of_lt h
      exact lt_of_le_of_lt hm0 hgt
    · rw [if_neg hgt]
      exact h

/-! ## Lemmas on rounding -/

theorem redondeaMitadPar_entero (n : ℤ) : redondeaMitadPar (n : ℝ) = n := by
  unfold redondeaMitadPar
  rw [if_neg, round_intCast]
  rw [Int.fract_intCast]
  norm_num

theorem redondear3_de_entero (n : ℤ) : redondear3 ((n : ℝ) / 1000) = (n : ℝ) / 1000 := by
  unfold redondear3
  rw [show ((n : ℝ) / 1000) * 1000 = ((n : ℤ) : ℝ) by ring]
  rw [redondeaMitadPar_entero]

theorem redondear3_cero : redondear3 0 = 0 := by
  have h := redondear3_de_entero 0
  norm_num at h
  exact h

theorem redondear3_uno : redondear3 1 = 1 := by
  have h := redondear3_de_entero 1000
  norm_num at h
  exact h

/-! ## Evaluation lemmas for the response policy -/

theorem responder_acierto {kb : List Registro} {msg : String}
    (h : UMBRAL ≤ (mejor_coincidencia kb msg).1.score) :
    responder kb msg = ⟨true, (mejor_coincidencia kb msg).1.respuesta,
      redondear3 (mejor_coincidencia kb msg).1.score,
      some (mejor_coincidencia kb msg).1.pregunta⟩ := by
  unfold responder
  rw [if_pos h]

theorem responder_fallo {kb : List Registro} {msg : String}
    (h : (mejor_coincidencia kb msg).1.score < UMBRAL) :
    responder kb msg = ⟨false, mensajeSinRespuesta,
      redondear3 (mejor_coincidencia kb msg).1.score, none⟩ := by
  unfold responder
  rw [if_neg (not_le.mpr h)]

/-! ## Claim theorems -/

/-- C1: Threshold boundary of the Response Policy: for every query, if the best
cosine score is at least the constant `UMBRAL = 0.72` then `responder` returns
a Hit carrying the stored answer, the rounded score and the matched normalized
question; if the score is strictly below the threshold it returns a Miss with
the fallback message. A score exactly equal to 0.72 satisfies the first arm. -/
theorem umbral_frontera (kb : List Registro) (msg : String) :
    (UMBRAL ≤ (mejor_coincidencia kb msg).1.score →
      responder kb msg = ⟨true, (mejor_coincidencia kb msg).1.respuesta,
        redondear3 (mejor_coincidencia kb msg).1.score,
        some (mejor_coincidencia kb msg).1.pregunta⟩) ∧
    ((mejor_coincidencia kb msg).1.score < UMBRAL →
      responder kb msg = ⟨false, mensajeSinRespuesta,
        redondear3 (mejor_coincidencia kb msg).1.score, none⟩) :=
  ⟨responder_acierto, responder_fallo⟩

/-- C1 witness: a knowledge base and query whose best cosine score is exactly
18/25 = 0.72 (query of 25 distinct tokens, stored question of 25 distinct
tokens, sharing 18): the result is a Hit. -/
theorem umbral_frontera_testigo :
    UMBRAL ≤ (mejor_coincidencia
      [⟨1, "a b c d e f g h i j k l m n o p q r 1 2 3 4 5 6 7", "R"⟩]
      "a b c d e f g h i j k l m n o p q r s t u v w x y").1.score ∧
    responder [⟨1, "a b c d e f g h i j k l m n o p q r 1 2 3 4 5 6 7", "R"⟩]
        "a b c d e f g h i j k l m n o p q r s t u v w x y" =
      ⟨true, "R", redondear3 ((18 : ℝ) / 25),
        some "a b c d e f g h i j k l m n o p q r 1 2 3 4 5 6 7"⟩ := by
  have hpf : puntajeFila
      (vecConsulta "a b c d e f g h i j k l m n o p q r s t u v w x y")
      ⟨1, "a b c d e f g h i j k l m n o p q r 1 2 3 4 5 6 7", "R"⟩ =
      (18 : ℝ) / 25 := by
    show similitud_coseno
      (vecConsulta "a b c d e f g h i j k l m n o p q r s t u v w x y")
      (vectorizar (tokenizar "a b c d e f g h i j k l m n o p q r 1 2 3 4 5 6 7")) =
      (18 : ℝ) / 25
    rw [similitud_eval]
    have h1 : sumaCuadrados
        (vecConsulta "a b c d e f g h i j k l m n o p q r s t u v w x y") = 25 := by
      decide
    have h2 : sumaCuadrados
        (vectorizar (tokenizar "a b c d e f g h i j k l m n o p q r 1 2 3 4 5 6 7")) =
        25 := by
      decide
    have h3 : productoPunto
        (vecConsulta "a b c d e f g h i j k l m n o p q r s t u v w x y")
        (vectorizar (tokenizar "a b c d e f g h i j k l m n o p q r 1 2 3 4 5 6 7")) =
        18 := by
      decide
    rw [if_neg (by rw [h1, h2]; norm_num)]
    unfold norma
    rw [h1, h2, h3]
    rw [show ((25 : ℕ) : ℝ) = 25 by norm_num, Real.mul_self_sqrt (by norm_num)]
    norm_num
  have hmc : (mejor_coincidencia
      [⟨1, "a b c d e f g h i j k l m n o p q r 1 2 3 4 5 6 7", "R"⟩]
      "a b c d e f g h i j k l m n o p q r s t u v w x y").1 =
      ⟨1, (18 : ℝ) / 25, "a b c d e f g h i j k l m n o p q r 1 2 3 4 5 6 7", "R"⟩ := by
    unfold mejor_coincidencia
    simp only [List.foldl_cons, List.foldl_nil]
    unfold paso
    rw [hpf]
    rw [if_pos (by show (18 : ℝ) / 25 > centinela.score; norm_num [centinela])]
    unfold mejorDe
    rw [hpf]
  have h72 : UMBRAL ≤ (mejor_coincidencia
      [⟨1, "a b c d e f g h i j k l m n o p q r 1 2 3 4 5 6 7", "R"⟩]
      "a b c d e f g h i j k l m n o p q r s t u v w x y").1.score := by
    rw [hmc]
    show UMBRAL ≤ (18 : ℝ) / 25
    norm_num [UMBRAL]
  refine ⟨h72, ?_⟩
  have hres := (umbral_frontera
    [⟨1, "a b c d e f g h i j k l m n o p q r 1 2 3 4 5 6 7", "R"⟩]
    "a b c d e f g h i j k l m n o p q r s t u v w x y").1 h72
  rw [hmc] at hres
  exact hres

/-- C2 counterexample: the round-trip fails for a question with no
alphanumeric tokens. Appending `("", "x")` and querying `""` yields a Miss
with score 0, not a Hit with answer `"x"` and score 1. -/
theorem aprendizaje_ida_vuelta_contraejemplo :
    (responder (guardar_entrada [] "" "x") "").coincidencia = false ∧
    responder (guardar_entrada [] "" "x") "" =
      ⟨false, mensajeSinRespuesta, 0, none⟩ := by
  have hg : guardar_entrada [] "" "x" = [⟨1, "", "x"⟩] := by decide
  have hv : vecConsulta "" = [] := by decide
  have hpf : puntajeFila (vecConsulta "") ⟨1, "", "x"⟩ = 0 := by
    show similitud_coseno (vecConsulta "") (vectorizar (tokenizar "")) = 0
    rw [hv]
    exact similitud_vacia_izq _
  have hmc : (mejor_coincidencia (guardar_entrada [] "" "x") "").1 = centinela := by
    rw [hg]
    unfold mejor_coincidencia
    simp only [List.foldl_cons, List.foldl_nil]
    unfold paso
    rw [if_neg (by rw [hpf]; show ¬((0:ℝ) > centinela.score); norm_num [centinela])]
  have hlt : (mejor_coincidencia (guardar_entrada [] "" "x") "").1.score < UMBRAL := by
    rw [hmc]
    show centinela.score < UMBRAL
    norm_num [centinela, UMBRAL]
  have hres := responder_fallo hlt
  have hred : redondear3 (mejor_coincidencia (guardar_entrada [] "" "x") "").1.score
      = 0 := by
    rw [hmc]
    show redondear3 (0.0:ℝ) = 0
    rw [show (0.0:ℝ) = 0 by norm_num]
    exact redondear3_cero
  rw [hres, hred]
  exact ⟨rfl, rfl⟩

/-- C2 (amended): for every question `q` that has at least one alphanumeric
token, and every knowledge base in which no stored record already scores 1
against `q`, appending `(q, a)` and then querying `q` verbatim yields a Hit
whose answer is `a`, whose score is 1, and whose matched question is
`normalizar q`. -/
theorem aprendizaje_ida_vuelta (kb : List Registro) (q a : String)
    (hq : tokenizar q ≠ [])
    (hkb : ∀ fila ∈ kb, puntajeFila (vecConsulta q) fila < 1) :
    responder (guardar_entrada kb q a) q = ⟨true, a, 1, some (normalizar q)⟩ := by
  have htoks : tokenizar (normalizar q) ≠ [] := by
    rw [tokenizar_normalizar]
    exact hq
  have hnodup := vectorizar_claves_nodup (tokenizar (normalizar q))
  have hpos := sumaCuadrados_vectorizar_pos htoks
  have hself : puntajeFila (vecConsulta q) ⟨siguienteId kb, normalizar q, a⟩ = 1 := by
    show similitud_coseno (vecConsulta q) (vectorizar (tokenizar (normalizar q))) = 1
    exact similitud_auto hnodup hpos
  have hfold : (guardar_entrada kb q a).foldl (paso (vecConsulta q)) centinela =
      mejorDe (vecConsulta q) ⟨siguienteId kb, normalizar q, a⟩ := by
    unfold guardar_entrada
    rw [List.foldl_append]
    simp only [List.foldl_cons, List.foldl_nil]
    have hb1lt : (kb.foldl (paso (vecConsulta q)) centinela).score < 1 := by
      rcases fold_resultado (vecConsulta q) kb centinela with h | ⟨fila, hf, he⟩
      · rw [h]
        show (0.0:ℝ) < 1
        norm_num
      · rw [he]
        show puntajeFila (vecConsulta q) fila < 1
        exact hkb fila hf
    unfold paso
    rw [if_pos (by rw [hself]; exact hb1lt)]
  have hmc : (mejor_coincidencia (guardar_entrada kb q a) q).1 =
      mejorDe (vecConsulta q) ⟨siguienteId kb, normalizar q, a⟩ := by
    unfold mejor_coincidencia
    exact hfold
  have hscore : (mejor_coincidencia (guardar_entrada kb q a) q).1.score = 1 := by
    rw [hmc]
    show puntajeFila (vecConsulta q) ⟨siguienteId kb, normalizar q, a⟩ = 1
    exact hself
  have h72 : UMBRAL ≤ (mejor_coincidencia (guardar_entrada kb q a) q).1.score := by
    rw [hscore]
    norm_num [UMBRAL]
  have hres := responder_acierto h72
  rw [hscore] at hres
  rw [hmc] at hres
  rw [hres, redondear3_uno]
  rfl

/-- C2 witness: learning `("hola", "Prueba")` on an empty store and asking
`"hola"` again gives that answer with score 1. -/
theorem aprendizaje_ida_vuelta_testigo :
    tokenizar "hola" ≠ [] ∧
    responder (guardar_entrada [] "hola" "Prueba") "hola" =
      ⟨true, "Prueba", 1, some (normalizar "hola")⟩ := by
  refine ⟨by decide, ?_⟩
  exact aprendizaje_ida_vuelta [] "hola" "Prueba" (by decide)
    (fun fila hf => absurd hf (List.not_mem_nil fila))

/-- C3 counterexample: an occurrence of `ñ` is not kept in the output of the
normalizer: `normalizar "ñ" = "n"`, so `ñ` does not appear in the output. -/
theorem enie_contraejemplo :
    normalizar "ñ" = "n" ∧ 'ñ' ∉ (normalizar "ñ").data := by
  exact ⟨by decide, by decide⟩

/-- C3 (amended): `ñ` is indeed in the retained character set of the cleaning
regex (and of the token alphabet), so it is never replaced by a space; but the
NFD decomposition step turns `ñ` into `n` plus a combining tilde and the
combining mark is removed, so an occurrence of `ñ` contributes the letter `n`
and a normalized string never contains `ñ`. -/
theorem enie_enmendado :
    conservaCaracter 'ñ' = true ∧ esAlfanumerico 'ñ' = true ∧
    (∀ s : String, 'ñ' ∉ (normalizar s).data) ∧ normalizar "ñ" = "n" := by
  refine ⟨by decide, by decide, ?_, by decide⟩
  intro s
  exact normalizar_sin_enie_lista s.data

/-- C4 counterexample: the nonempty frequency map `{"x": 0}` (a legal
`mapping<string,int>` with a non-negative count) has cosine 0 with itself, not
1, because its norm is zero. -/
theorem coseno_cotas_contraejemplo :
    ([("x", 0)] : Dict) ≠ [] ∧
    similitud_coseno [("x", 0)] [("x", 0)] ≠ 1 := by
  constructor
  · simp
  · rw [similitud_norma_cero (Or.inl (norma_cero.mpr (by decide)))]
    norm_num

/-- C4 (amended): over well-formed frequency maps (distinct keys, as Python
dicts are), `similitud_coseno a a = 1` whenever `a` has at least one nonzero
count (equivalently, nonzero norm); `similitud_coseno a b` always lies in
`[0, 1]`; and the cosine of the empty map with any map is 0. -/
theorem coseno_cotas_enmendado :
    (∀ a : Dict, (claves a).Nodup → 0 < sumaCuadrados a →
      similitud_coseno a a = 1) ∧
    (∀ a b : Dict, (claves a).Nodup → (claves b).Nodup →
      0 ≤ similitud_coseno a b ∧ similitud_coseno a b ≤ 1) ∧
    (∀ b : Dict, similitud_coseno [] b = 0) :=
  ⟨fun _ hn hp => similitud_auto hn hp,
   fun a b ha hb => ⟨similitud_no_negativa a b, similitud_cota_uno ha hb⟩,
   similitud_vacia_izq⟩

/-- C4 witness: concrete instances of the three amended bounds. -/
theorem coseno_cotas_testigo :
    (claves ([("x", 2)] : Dict)).Nodup ∧ 0 < sumaCuadrados [("x", 2)] ∧
    similitud_coseno [("x", 2)] [("x", 2)] = 1 ∧
    0 ≤ similitud_coseno [("x", 2)] [("y", 3)] ∧
    similitud_coseno [("x", 2)] [("y", 3)] ≤ 1 ∧
    similitud_coseno [] [("x", 2)] = 0 := by
  refine ⟨by decide, by decide,
    coseno_cotas_enmendado.1 _ (by decide) (by decide),
    (coseno_cotas_enmendado.2.1 [("x", 2)] [("y", 3)] (by decide) (by decide)).1,
    (coseno_cotas_enmendado.2.1 [("x", 2)] [("y", 3)] (by decide) (by decide)).2,
    coseno_cotas_enmendado.2.2 _⟩

/-- C5: Tie-break determinism: the running maximum is updated only on a
strictly greater score, so when a record `ra` earlier in the knowledge base
scores the same as a later record `rb` (with distinct row ids, as SQLite
assigns, and `rb.id` distinct from the sentinel id `-1`), `best_match` never
returns `rb`. -/
theorem desempate_determinista (texto : String) (pre : List Registro)
    (ra : Registro) (mid : List Registro) (rb : Registro) (post : List Registro)
    (hid : ((pre ++ ra :: mid ++ rb :: post).map Registro.id).Nodup)
    (hrb : rb.id ≠ -1)
    (hsc : puntajeFila (vecConsulta texto) ra = puntajeFila (vecConsulta texto) rb) :
    (mejor_coincidencia (pre ++ ra :: mid ++ rb :: post) texto).1.id ≠ rb.id := by
  unfold mejor_coincidencia
  have hshape : pre ++ ra :: mid ++ rb :: post = (pre ++ ra :: mid) ++ rb :: post := by
    simp
  rw [hshape]
  rw [List.foldl_append]
  simp only [List.foldl_cons]
  have hidsA : ∀ fila ∈ pre ++ ra :: mid, fila.id ≠ rb.id := by
    intro fila hf heq
    rw [hshape] at hid
    rw [List.map_append, List.nodup_append] at hid
    exact hid.2.2 (List.mem_map_of_mem Registro.id hf)
      (by rw [heq] at *; exact List.mem_map_of_mem Registro.id (by simp))
  have hidsPost : ∀ fila ∈ post, fila.id ≠ rb.id := by
    intro fila hf heq
    rw [hshape] at hid
    rw [List.map_append, List.nodup_append] at hid
    have hcons := hid.2.1
    simp only [List.map_cons, List.nodup_cons] at hcons
    exact hcons.1 (by rw [← heq]; exact List.mem_map_of_mem Registro.id hf)
  have hra : puntajeFila (vecConsulta texto) ra ≤
      ((pre ++ ra :: mid).foldl (paso (vecConsulta texto)) centinela).score :=
    fold_score_ge (by simp) centinela
  have hstep : paso (vecConsulta texto)
      ((pre ++ ra :: mid).foldl (paso (vecConsulta texto)) centinela) rb =
      (pre ++ ra :: mid).foldl (paso (vecConsulta texto)) centinela := by
    unfold paso
    rw [if_neg (not_lt.mpr (by rw [← hsc]; exact hra))]
  rw [hstep]
  rcases fold_resultado (vecConsulta texto) post
      ((pre ++ ra :: mid).foldl (paso (vecConsulta texto)) centinela) with h | ⟨fila, hf, he⟩
  · rw [h]
    rcases fold_resultado (vecConsulta texto) (pre ++ ra :: mid) centinela with
      h2 | ⟨fila, hf2, he2⟩
    · rw [h2]
      show (-1 : Int) ≠ rb.id
      exact fun heq => hrb heq.symm
    · rw [he2]
      show fila.id ≠ rb.id
      exact hidsA fila hf2
  · rw [he]
    show fila.id ≠ rb.id
    exact hidsPost fila hf

/-- C5 witness: two records with the same stored question (hence equal cosine
score) against the query; the result is not the later record. -/
theorem desempate_determinista_testigo :
    (mejor_coincidencia [⟨1, "hola", "r1"⟩, ⟨2, "hola", "r2"⟩] "hola").1.id ≠ 2 := by
  have h := desempate_determinista "hola" [] ⟨1, "hola", "r1"⟩ [] ⟨2, "hola", "r2"⟩ []
    (by decide) (by decide) rfl
  simpa using h

/-- C6: Zero-norm guard of the cosine scorer: if either map has Euclidean norm
zero, the cosine is exactly 0; in particular the empty map (on either side)
gives 0. The scorer is a total function on all pairs of maps by construction. -/
theorem guarda_norma_cero (a b : Dict) :
    ((norma a = 0 ∨ norma b = 0) → similitud_coseno a b = 0) ∧
    similitud_coseno [] b = 0 ∧ similitud_coseno a [] = 0 :=
  ⟨similitud_norma_cero, similitud_vacia_izq b, similitud_vacia_der a⟩

/-- C6 witness: the empty map has norm zero and cosine 0 with `{"x": 2}`. -/
theorem guarda_norma_cero_testigo :
    norma ([] : Dict) = 0 ∧ similitud_coseno ([] : Dict) [("x", 2)] = 0 := by
  have h0 : norma ([] : Dict) = 0 := norma_cero.mpr rfl
  exact ⟨h0, (guarda_norma_cero ([] : Dict) [("x", 2)]).1 (Or.inl h0)⟩

/-- C7: Sentinel and guaranteed Miss: if every stored record scores 0 against
the query (vacuously so for the empty knowledge base), `mejor_coincidencia`
returns the sentinel and `responder` returns a Miss with score 0 and the fixed
fallback message; moreover the result is always either the sentinel or has
strictly positive score, so a record scoring exactly 0 never becomes the
match. -/
theorem centinela_fallo_garantizado (kb : List Registro) (texto : String) :
    ((∀ fila ∈ kb, puntajeFila (vecConsulta texto) fila = 0) →
      (mejor_coincidencia kb texto).1 = centinela ∧
      responder kb texto = ⟨false, mensajeSinRespuesta, 0, none⟩) ∧
    ((mejor_coincidencia kb texto).1 = centinela ∨
      0 < (mejor_coincidencia kb texto).1.score) := by
  constructor
  · intro h
    have hmc : (mejor_coincidencia kb texto).1 = centinela := by
      unfold mejor_coincidencia
      refine fold_sin_actualizar (fun fila hf => ?_)
      rw [h fila hf]
      show (0:ℝ) ≤ centinela.score
      norm_num [centinela]
    refine ⟨hmc, ?_⟩
    have hlt : (mejor_coincidencia kb texto).1.score < UMBRAL := by
      rw [hmc]
      show centinela.score < UMBRAL
      norm_num [centinela, UMBRAL]
    have hres := responder_fallo hlt
    have hred : redondear3 (mejor_coincidencia kb texto).1.score = 0 := by
      rw [hmc]
      show redondear3 (0.0:ℝ) = 0
      rw [show (0.0:ℝ) = 0 by norm_num]
      exact redondear3_cero
    rw [hres, hred]
  · unfold mejor_coincidencia
    exact fold_centinela_o_positivo (vecConsulta texto) kb centinela (Or.inl rfl)

/-- C7 witness: the empty knowledge base produces the sentinel and a Miss with
score 0. -/
theorem centinela_fallo_garantizado_testigo :
    (mejor_coincidencia [] "hola").1 = centinela ∧
    responder [] "hola" = ⟨false, mensajeSinRespuesta, 0, none⟩ :=
  (centinela_fallo_garantizado [] "hola").1
    (fun fila hf => absurd hf (List.not_mem_nil fila))

/-- C8: Stored-question normalization invariant: in every knowledge-base state
reachable through the write interface (empty store, bootstrap, learning),
every record's question equals its own normalization: the seeds are fixed
points of `normalizar`, `guardar_entrada` normalizes before writing (so
idempotence of `normalizar` gives the fixed point), and no operation updates
existing records. -/
theorem invariante_pregunta_normalizada {kb : List Registro} (h : Alcanzable kb) :
    ∀ fila ∈ kb, fila.pregunta = normalizar fila.pregunta := by
  induction h with
  | vacia =>
    intro fila hf
    simp at hf
  | @arranque kb hkb ih =>
    intro fila hf
    unfold iniciar_db at hf
    by_cases hl : kb.length = 0
    · rw [if_pos hl] at hf
      have hsem : ∀ r ∈ semillas, r.pregunta = normalizar r.pregunta := by decide
      exact hsem fila hf
    · rw [if_neg hl] at hf
      exact ih fila hf
  | @aprende kb pregunta respuesta hkb ih =>
    intro fila hf
    unfold guardar_entrada at hf
    rcases List.mem_append.mp hf with hf | hf
    · exact ih fila hf
    · have : fila = ⟨siguienteId kb, normalizar pregunta, respuesta⟩ := by
        simpa using hf
      rw [this]
      show normalizar pregunta = normalizar (normalizar pregunta)
      exact (normalizar_idempotente pregunta).symm

/-- C8 witness: after bootstrapping the empty store and learning
`("¿CÓMO?", "R")`, the learned row carries the normalized question `"como?"`,
which is a fixed point of `normalizar`. -/
theorem invariante_pregunta_normalizada_testigo :
    (⟨4, "como?", "R"⟩ : Registro) ∈ guardar_entrada (iniciar_db []) "¿CÓMO?" "R" ∧
    ("como?" : String) = normalizar "como?" := by
  have halc : Alcanzable (guardar_entrada (iniciar_db []) "¿CÓMO?" "R") :=
    Alcanzable.aprende _ _ (Alcanzable.arranque Alcanzable.vacia)
  have hmem : (⟨4, "como?", "R"⟩ : Registro) ∈
      guardar_entrada (iniciar_db []) "¿CÓMO?" "R" := by decide
  exact ⟨hmem, invariante_pregunta_normalizada halc _ hmem⟩

/-- C9: Bootstrap idempotence: on the empty store `iniciar_db` inserts exactly
the fixed seed set of 3 records; on any non-empty store it inserts nothing;
hence repeated calls never duplicate the seeds and the seeds are present right
after a call if and only if they were inserted on an empty store. -/
theorem iniciar_db_idempotente :
    iniciar_db [] = semillas ∧ semillas.length = 3 ∧
    (∀ kb : List Registro, kb ≠ [] → iniciar_db kb = kb) ∧
    (∀ kb : List Registro, iniciar_db (iniciar_db kb) = iniciar_db kb) := by
  have hns : ∀ kb : List Registro, kb ≠ [] → iniciar_db kb = kb := by
    intro kb h
    unfold iniciar_db
    rw [if_neg (fun hl => h (List.length_eq_zero.mp hl))]
  refine ⟨rfl, rfl, hns, ?_⟩
  intro kb
  by_cases h : kb = []
  · subst h
    have hsem : (semillas : List Registro) ≠ [] := by simp [semillas]
    show iniciar_db (iniciar_db []) = iniciar_db []
    have h0 : iniciar_db ([] : List Registro) = semillas := rfl
    rw [h0, hns semillas hsem]
  · rw [hns kb h, hns kb h]

/-- C9 witness: a store holding one record is left unchanged by `iniciar_db`. -/
theorem iniciar_db_idempotente_testigo :
    ([⟨7, "hola", "R"⟩] : List Registro) ≠ [] ∧
    iniciar_db [⟨7, "hola", "R"⟩] = [⟨7, "hola", "R"⟩] :=
  ⟨by simp, iniciar_db_idempotente.2.2.1 _ (by simp)⟩

/-- C10: Score rounding in the Outcome: in both the Hit and the Miss case the
`puntaje` field of `responder` is the best raw cosine score rounded to 3
decimal places, while the comparison with the threshold 0.72 is performed on
the unrounded score. -/
theorem redondeo_puntaje (kb : List Registro) (msg : String) :
    (responder kb msg).puntaje =
      redondear3 (mejor_coincidencia kb msg).1.score ∧
    ((responder kb msg).coincidencia = true ↔
      UMBRAL ≤ (mejor_coincidencia kb msg).1.score) := by
  by_cases h : UMBRAL ≤ (mejor_coincidencia kb msg).1.score
  · rw [responder_acierto h]
    exact ⟨rfl, by simp [h]⟩
  · rw [responder_fallo (not_le.mp h)]
    exact ⟨rfl, by simp [h]⟩

/-- C10 witness: the rounding equation evaluated on a concrete store and
query. -/
theorem redondeo_puntaje_testigo :
    (responder [⟨1, "hola", "R"⟩] "hola").puntaje =
      redondear3 (mejor_coincidencia [⟨1, "hola", "R"⟩] "hola").1.score :=
  (redondeo_puntaje [⟨1, "hola", "R"⟩] "hola").1

end Experto
